import Mathlib

/-!
# Verification of the TRestAxionField probability engines

A shallow embedding, over the real numbers, of the numerical core of
`TRestAxionField.cxx` (rest-for-physics/axionlib): the closed-form
axion-photon conversion probability, the discrete-profile (vector) overload,
the field-map adaptive integration wrappers, the FWHM walk and the
mass-density scan generator.  Doubles are modelled as real numbers; the
C++ control flow (branches, loops, early returns, the `fBufferGas`
save/restore) is mirrored statement by statement.  External collaborators
(buffer gas, magnetic-field map, GSL quadrature) are modelled as abstract
data supplied by the caller, exactly at the interface the source uses.
-/

open scoped Classical

noncomputable section

namespace REST

/-- REST default units: lengths in mm, so `units("m")` is the mm→m factor. -/
def units_m : ℝ := 1 / 1000

/-- REST default units: `units("cm")` is the mm→cm factor. -/
def units_cm : ℝ := 1 / 10

/-- REST default units: `units("mm")` is the identity factor. -/
def units_mm : ℝ := 1

/-- REST default units: energies in keV, so `units("eV")` is the keV→eV factor. -/
def units_eV : ℝ := 1000

/-- REST default units: `units("GeV")` is the keV→GeV factor. -/
def units_GeV : ℝ := 1 / 1000000

/-- External physics constant `REST_Physics::lightSpeed` (m/s). -/
def lightSpeed : ℝ := 299792458

/-- External physics constant `REST_Physics::naturalElectron`,
the electron mass in natural units (eV). -/
def naturalElectron : ℝ := 510998.95

/-- External physics constant `REST_Physics::PhMeterIneV`:
one meter expressed in inverse eV. -/
def PhMeterIneV : ℝ := 5067730.716548338

end REST

namespace TRestAxionField

open REST

/-- The mutable field configuration of a `TRestAxionField` instance:
magnetic field `fBmag` (T), coherence length `fLcoh` (mm), axion
energy `fEa` (keV). -/
structure FieldState where
  fBmag : ℝ
  fLcoh : ℝ
  fEa : ℝ

/-- The external `TRestAxionBufferGas` collaborator, for one gas name:
its response functions, parameterized by the currently set density.
`photonMass density Ea` is `GetPhotonMass(Ea)` after
`SetGasDensity(gasName, density)`, and similarly for the absorption
length and the two `GetDensityForMass` overloads. -/
structure GasSpec where
  photonMass : ℝ → ℝ → ℝ
  photonAbsLength : ℝ → ℝ → ℝ
  densityForMassE : ℝ → ℝ → ℝ
  densityForMass : ℝ → ℝ

/-- A buffer gas instance: its response functions together with the
density currently set on it. -/
structure GasInst where
  spec : GasSpec
  density : ℝ

/-- `TRestAxionBufferGas::GetPhotonMass(Ea)` on a bound gas instance. -/
def GasInst.GetPhotonMass (g : GasInst) (Ea : ℝ) : ℝ :=
  g.spec.photonMass g.density Ea

/-- `TRestAxionBufferGas::GetPhotonAbsorptionLength(Ea)` (cm⁻¹) on a
bound gas instance. -/
def GasInst.GetPhotonAbsorptionLength (g : GasInst) (Ea : ℝ) : ℝ :=
  g.spec.photonAbsLength g.density Ea

/-- `TRestAxionField::BL`: the (BL) factor in natural units, for
`Bmag` in T and `Lcoh` in mm, at the reference coupling 10⁻¹⁰ GeV⁻¹. -/
def BL (Bmag Lcoh : ℝ) : ℝ :=
  let lengthInMeters := Lcoh * units_m
  let tm := lightSpeed / naturalElectron * units_GeV / units_eV
  lengthInMeters * Bmag * tm * (1 / 10000000000)

/-- `TRestAxionField::BLHalfSquared`: the (BL/2)² factor in natural
units, for `Bmag` in T and `Lcoh` in mm. -/
def BLHalfSquared (Bmag Lcoh : ℝ) : ℝ :=
  let lengthInMeters := Lcoh * units_m
  let tm := lightSpeed / naturalElectron * units_GeV / units_eV
  let sol := lengthInMeters * Bmag * tm / 2
  sol * sol * (1 / 100000000000000000000)

/-- The photon-mass resolution policy of the closed-form engine:
`photonMass = mg`, overridden by the gas lookup when `mg == 0` and a
buffer gas is bound (lines 297-299 of the source). -/
def resolvedPhotonMass (gas : Option GasInst) (Ea mg : ℝ) : ℝ :=
  match gas with
  | some g => if mg = 0 then g.GetPhotonMass Ea else mg
  | none => mg

/-- The attenuation-coefficient resolution policy: `Gamma = absLength`,
overridden by the gas lookup when `absLength == 0` and a buffer gas is
bound (lines 316-317 of the source).  Units: cm⁻¹. -/
def resolvedGamma (gas : Option GasInst) (Ea absLength : ℝ) : ℝ :=
  match gas with
  | some g => if absLength = 0 then g.GetPhotonAbsorptionLength Ea else absLength
  | none => absLength

/-- `TRestAxionField::GammaTransmissionProbability(ma, mg, absLength)`:
the closed-form conversion probability (van Bibber eq. 11) for the
current field state, with the gas-resolution policy of the source. -/
def GammaTransmissionProbability (st : FieldState) (gas : Option GasInst)
    (ma mg absLength : ℝ) : ℝ :=
  let cohLength := st.fLcoh * units_m
  let photonMass := resolvedPhotonMass gas st.fEa mg
  if ma = 0 ∧ photonMass = 0 then BLHalfSquared st.fBmag st.fLcoh
  else
    let q := (ma * ma - photonMass * photonMass) / 2 / (st.fEa * units_eV)
    let l := cohLength * PhMeterIneV
    let phi := q * l
    let Gamma := resolvedGamma gas st.fEa absLength
    let GammaL := Gamma * cohLength * units_cm / units_m
    let MFactor := 1 / (phi * phi + GammaL * GammaL / 4)
    MFactor * BLHalfSquared st.fBmag st.fLcoh *
      (1 + Real.exp (-GammaL) - 2 * Real.exp (-GammaL / 2) * Real.cos phi)

/-- The transmission formula exactly as the specification words it:
`[1/(phi² + (GammaL/2)²)] · (BL/2)² · (1 + e^(−GammaL) − 2·e^(−GammaL/2)·cos(phi))`. -/
def specTransmissionFormula (phi GammaL BLhalf2 : ℝ) : ℝ :=
  (1 / (phi ^ 2 + (GammaL / 2) ^ 2)) * BLhalf2 *
    (1 + Real.exp (-GammaL) - 2 * Real.exp (-GammaL / 2) * Real.cos phi)

/-- The C++ `size_t` computation `Bmag.size() - 1`: unsigned subtraction
modulo 2⁶⁴, which underflows to 2⁶⁴ − 1 when the vector is empty
(line 385 of the source). -/
def sizeMinusOne (n : ℕ) : ℕ := (n + (2 ^ 64 - 1)) % 2 ^ 64

/-- One midpoint term of the discrete-profile sum (lines 443-455):
`Bmiddle · deltaL · exp(0.5·Γ·lStep_cm − i·q·lStep_eV)` at midpoint `n`.
Vector accesses `Bmag[n]`, `Bmag[n+1]` are checked: `none` models an
out-of-range access. -/
def midpointTerm (Bmag : List ℝ) (deltaL q Gamma : ℝ) (n : ℕ) : Option ℂ :=
  match Bmag[n]?, Bmag[n + 1]? with
  | some b0, some b1 =>
    let Bmiddle := 0.5 * (b0 + b1)
    let lStepIneV := ((n : ℝ) + 0.5) * (deltaL * units_m * PhMeterIneV)
    let lStepInCm := ((n : ℝ) + 0.5) * deltaL * units_cm
    some (((Bmiddle * deltaL : ℝ) : ℂ) *
      Complex.exp ⟨0.5 * Gamma * lStepInCm, -(q * lStepIneV)⟩)
  | _, _ => none

/-- The accumulated complex sum of the first `count` midpoint terms;
`none` as soon as any term accesses the vector out of range. -/
def vecSumN (Bmag : List ℝ) (deltaL q Gamma : ℝ) : ℕ → Option ℂ
  | 0 => some 0
  | n + 1 =>
    match vecSumN Bmag deltaL q Gamma n, midpointTerm Bmag deltaL q Gamma n with
    | some s, some t => some (s + t)
    | _, _ => none

/-- The discrete-profile overload
`TRestAxionField::GammaTransmissionProbability(Bmag, deltaL, Ea, ma, mg, absLength)`
(Redondo-Ringwald eq. 28, midpoint rule).  `TComplex::Rho2` is the
squared modulus, i.e. `Complex.normSq`.  The loop bound is the C++
`Bmag.size() - 1` in `size_t` arithmetic; the result is `none` when the
loop reads past the end of the vector. -/
def GammaTransmissionProbabilityVec (gas : Option GasInst) (Bmag : List ℝ)
    (deltaL Ea ma mg absLength : ℝ) : Option ℝ :=
  let count := sizeMinusOne Bmag.length
  let Lcoh := (count : ℝ) * deltaL
  let cohLength := Lcoh * units_m
  let photonMass := resolvedPhotonMass gas Ea mg
  let fieldAverage := if 0 < Bmag.length then Bmag.sum / (Bmag.length : ℝ) else 0
  if ma = 0 ∧ photonMass = 0 then some (BLHalfSquared fieldAverage Lcoh)
  else
    let q := (ma * ma - photonMass * photonMass) / 2 / (Ea * units_eV)
    let Gamma := resolvedGamma gas Ea absLength
    let GammaL := Gamma * cohLength * units_cm / units_m
    (vecSumN Bmag deltaL q Gamma count).map fun s =>
      Real.exp (-GammaL) * Complex.normSq s * BLHalfSquared 1 1

/-- The external `TRestAxionMagneticField` collaborator, reduced to the
interface the field-map engine uses: `GetTrackLength()` (mm). -/
structure MagneticField where
  GetTrackLength : ℝ

/-- The outcome of one GSL quadrature call: the returned status code and
the output slots for the integral value and its absolute error. -/
structure QuadResult where
  status : ℤ
  value : ℝ
  abserr : ℝ

/-- `TRestAxionField::ComputeResonanceIntegral`: the QAG wrapper for the
resonance case `q = 0`.  The quadrature call itself is external; its
outcome is the `qag` argument.  A positive status short-circuits to
`(0, status)` (line 566). -/
def ComputeResonanceIntegral (M : MagneticField) (qag : QuadResult) (Gamma : ℝ) : ℝ × ℝ :=
  if 0 < qag.status then (0, (qag.status : ℝ))
  else
    let GammaL := Gamma * M.GetTrackLength
    let C := Real.exp (-GammaL) * BLHalfSquared 1 1
    (C * (qag.value * qag.value), 2 * C * qag.value * qag.abserr)

/-- `TRestAxionField::ComputeOffResonanceIntegral`: the QAWO wrapper for
the off-resonance case.  The cosine-weighted call runs first; a positive
status on either call short-circuits to `(0, status)`
(lines 630-640). -/
def ComputeOffResonanceIntegral (M : MagneticField) (qawoCos qawoSin : QuadResult)
    (q Gamma : ℝ) : ℝ × ℝ :=
  if 0 < qawoCos.status then (0, (qawoCos.status : ℝ))
  else if 0 < qawoSin.status then (0, (qawoSin.status : ℝ))
  else
    let GammaL := Gamma * M.GetTrackLength
    let C := Real.exp (-GammaL) * BLHalfSquared 1 1
    (C * (qawoCos.value * qawoCos.value + qawoSin.value * qawoSin.value),
      2 * C * Real.sqrt (qawoCos.value * qawoCos.value * qawoCos.abserr * qawoCos.abserr +
        qawoSin.value * qawoSin.value * qawoSin.abserr * qawoSin.abserr))

/-- `TRestAxionField::GammaTransmissionFieldMapProbability(Ea, ma, ...)`.
The returned `Bool` records whether a `RESTError` diagnostic was
emitted.  Missing field map: error and `(0,0)` (lines 488-493);
non-positive track length: `(0,0)` with no diagnostic (line 495);
otherwise dispatch on `q` to the QAG/QAWO wrappers. -/
def GammaTransmissionFieldMapProbability (fieldMap : Option MagneticField)
    (gas : Option GasInst) (qag qawoCos qawoSin : QuadResult)
    (Ea ma : ℝ) : (ℝ × ℝ) × Bool :=
  match fieldMap with
  | none => ((0, 0), true)
  | some M =>
    if M.GetTrackLength ≤ 0 then ((0, 0), false)
    else
      let photonMass := match gas with
        | some g => g.GetPhotonMass Ea
        | none => 0
      let q0 := (ma * ma - photonMass * photonMass) / 2 / (Ea * units_eV)
      let q := q0 * PhMeterIneV * units_m / units_mm
      let Gamma := match gas with
        | some g => g.GetPhotonAbsorptionLength Ea * units_cm / units_mm
        | none => 0
      if q = 0 then (ComputeResonanceIntegral M qag Gamma, false)
      else (ComputeOffResonanceIntegral M qawoCos qawoSin q Gamma, false)

/-- Exit state of the FWHM upward mass walk: either the probability
crossed half-maximum at `scanMass`, or the walk passed the 10 eV hard
ceiling (the sentinel error path, lines 775-780). -/
inductive WalkResult
  | crossed (scanMass : ℝ)
  | sentinel

/-- The upward walk of `TRestAxionField::GammaTransmissionFWHM`
(lines 771-781), with explicit fuel: while the probability at
`scanMass` stays above `halfMax`, advance by `step`; return the
sentinel once the walk passes 10 eV.  `none` means the fuel ran out
before the loop exited (never happens for the fuel chosen below). -/
def fwhmWalk (P : ℝ → ℝ) (halfMax step : ℝ) : ℕ → ℝ → Option WalkResult
  | 0, _ => none
  | fuel + 1, scanMass =>
    if halfMax < P scanMass then
      if 10 < scanMass + step then some WalkResult.sentinel
      else fwhmWalk P halfMax step fuel (scanMass + step)
    else some (WalkResult.crossed scanMass)

/-- Fuel sufficient for `fwhmWalk` to exit on its own: one step past
the 10 eV ceiling. -/
def walkFuel (resonanceMass step : ℝ) : ℕ := ⌈(10 - resonanceMass) / step⌉₊ + 1

/-- The body of `TRestAxionField::GammaTransmissionFWHM(step)` for an
arbitrary probability curve `P`: evaluate `Pmax` at the resonance, walk
upward to the half-maximum crossing, return twice the width — or the
sentinel 10 on ceiling overrun, or twice `step` when the width came out
non-positive.  The `Bool` records whether a `RESTError` was emitted.
The `none` fuel branch is unreachable for positive `step`. -/
def fwhmSearch (P : ℝ → ℝ) (resonanceMass step : ℝ) : ℝ × Bool :=
  let Pmax := P resonanceMass
  match fwhmWalk P (Pmax / 2) step (walkFuel resonanceMass step) resonanceMass with
  | some (WalkResult.crossed scanMass) =>
    let fwhm := scanMass - resonanceMass
    if fwhm ≤ 0 then (2 * step, true) else (2 * fwhm, false)
  | some WalkResult.sentinel => (10, true)
  | none => (0, false)

/-- The resonance mass used by the FWHM method (lines 767-768): the
gas photon mass at the current energy, zero in vacuum. -/
def fwhmResonanceMass (gas : Option GasInst) (Ea : ℝ) : ℝ :=
  match gas with
  | some g => g.GetPhotonMass Ea
  | none => 0

/-- `TRestAxionField::GammaTransmissionFWHM(step)` on a field instance:
the walk of the one-argument closed-form probability. -/
def GammaTransmissionFWHM (st : FieldState) (gas : Option GasInst) (step : ℝ) : ℝ × Bool :=
  fwhmSearch (fun m => GammaTransmissionProbability st gas m 0 0)
    (fwhmResonanceMass gas st.fEa) step

/-- The scan loop of `GetMassDensityScanning` (lines 839-847), with
explicit fuel: while `ma < maMax`, set the gas density, advance `ma`
by `FWHM/factor` with `factor = e^(−ma·rampDown) + 1`, look up the
density for the new mass and emit the pair.  The FWHM call uses the
default step 0.001 eV.  `none` means the fuel ran out mid-loop. -/
def scanLoop (spec : GasSpec) (st : FieldState) (maMax rampDown : ℝ) :
    ℕ → ℝ → ℝ → List (ℝ × ℝ) → Option (List (ℝ × ℝ))
  | 0, ma, _, acc => if ma < maMax then none else some acc
  | fuel + 1, ma, density, acc =>
    if ma < maMax then
      let factor := Real.exp (-ma * rampDown) + 1
      let gas : GasInst := ⟨spec, density⟩
      let ma' := ma + (GammaTransmissionFWHM st (some gas) (1 / 1000)).1 / factor
      let density' := spec.densityForMass ma'
      scanLoop spec st maMax rampDown fuel ma' density' (acc ++ [(ma', density')])
    else some acc

/-- `TRestAxionField::GetMassDensityScanning(gasName, maMax, rampDown)`.
The previous `fBufferGas` binding is saved and detached (lines 819-824),
the first scan mass is half the vacuum FWHM (line 827), a fresh gas for
`gasName` — modelled by `spec` — is attached with density 0 and queried
for the first density (lines 829-834), the loop emits the remaining
pairs, and the saved binding is restored on return (line 850).  The
result carries the emitted pairs together with the `fBufferGas`
observable after the call. -/
def GetMassDensityScanning (spec : GasSpec) (st : FieldState)
    (fBufferGas : Option GasInst) (maMax rampDown : ℝ) (fuel : ℕ) :
    Option (List (ℝ × ℝ) × Option GasInst) :=
  let previousGas := fBufferGas
  let firstMass := (GammaTransmissionFWHM st none (1 / 1000)).1 / 2
  let ma := firstMass
  let density := spec.densityForMassE firstMass st.fEa
  (scanLoop spec st maMax rampDown fuel ma density [(ma, density)]).map
    (fun pairs => (pairs, previousGas))

/-- Concrete fixture: a gas whose responses are identically zero. -/
def gasSpecZero : GasSpec := ⟨fun _ _ => 0, fun _ _ => 0, fun _ _ => 0, fun _ => 0⟩

/-- Concrete fixture: a gas reporting photon mass 10 eV and absorption
coefficient 10 cm⁻¹ at every density and energy. -/
def gasSpecTen : GasSpec := ⟨fun _ _ => 10, fun _ _ => 10, fun _ _ => 0, fun _ => 0⟩

end TRestAxionField

namespace TRestAxionField

open REST

/-- C1: outside the both-masses-zero degenerate branch, the closed-form
engine returns exactly the spec's formula, with `phi = q·l`,
`q = (ma² − mg_eff²)/(2·Ea[eV])`, `l` the coherence length in inverse eV,
and `GammaL` the resolved attenuation coefficient times the coherence
length in cm. -/
theorem gammaTransmissionProbability_eq_specFormula (st : FieldState)
    (gas : Option GasInst) (ma mg absLength : ℝ)
    (h : ¬(ma = 0 ∧ resolvedPhotonMass gas st.fEa mg = 0)) :
    GammaTransmissionProbability st gas ma mg absLength =
      specTransmissionFormula
        ((ma ^ 2 - (resolvedPhotonMass gas st.fEa mg) ^ 2) / (2 * (st.fEa * units_eV)) *
          (st.fLcoh * units_m * PhMeterIneV))
        (resolvedGamma gas st.fEa absLength * (st.fLcoh * units_cm))
        (BLHalfSquared st.fBmag st.fLcoh) := by
  have hGL : resolvedGamma gas st.fEa absLength * (st.fLcoh * units_m) * units_cm / units_m
      = resolvedGamma gas st.fEa absLength * (st.fLcoh * units_cm) := by
    rw [units_m, units_cm]; ring
  have hphi : (ma * ma - resolvedPhotonMass gas st.fEa mg * resolvedPhotonMass gas st.fEa mg)
        / 2 / (st.fEa * units_eV) * (st.fLcoh * units_m * PhMeterIneV)
      = (ma ^ 2 - (resolvedPhotonMass gas st.fEa mg) ^ 2) / (2 * (st.fEa * units_eV)) *
        (st.fLcoh * units_m * PhMeterIneV) := by
    ring
  simp only [GammaTransmissionProbability, specTransmissionFormula, if_neg h]
  rw [hGL, hphi]
  ring

/-- C1 witness: the general-case formula at a concrete vacuum input. -/
theorem gammaTransmissionProbability_eq_specFormula_witness :
    GammaTransmissionProbability ⟨2, 10000, 4⟩ none 1 0 0 =
      specTransmissionFormula
        (((1 : ℝ) ^ 2 - (resolvedPhotonMass none (4 : ℝ) 0) ^ 2) / (2 * ((4 : ℝ) * units_eV)) *
          ((10000 : ℝ) * units_m * PhMeterIneV))
        (resolvedGamma none (4 : ℝ) 0 * ((10000 : ℝ) * units_cm))
        (BLHalfSquared 2 10000) :=
  gammaTransmissionProbability_eq_specFormula ⟨2, 10000, 4⟩ none 1 0 0
    (by simp [resolvedPhotonMass])

/-- C2: with `ma = 0`, `mg = 0` and the gas (if any) reporting photon
mass zero, the closed-form engine returns exactly `(BL/2)²`, for every
`absLength` and so independently of any attenuation coefficient. -/
theorem gammaTransmissionProbability_vacuum (st : FieldState)
    (gas : Option GasInst) (absLength : ℝ)
    (h : ∀ g, gas = some g → g.GetPhotonMass st.fEa = 0) :
    GammaTransmissionProbability st gas 0 0 absLength =
      BLHalfSquared st.fBmag st.fLcoh := by
  have hpm : resolvedPhotonMass gas st.fEa 0 = 0 := by
    cases gas with
    | none => rfl
    | some g => simp [resolvedPhotonMass, h g rfl]
  simp [GammaTransmissionProbability, hpm]

/-- C2 witness: vacuum with nonzero `absLength` still gives `(BL/2)²`. -/
theorem gammaTransmissionProbability_vacuum_witness :
    GammaTransmissionProbability ⟨2, 10000, 4⟩ none 0 0 5 =
      BLHalfSquared 2 10000 :=
  gammaTransmissionProbability_vacuum ⟨2, 10000, 4⟩ none 5
    (fun g hg => by cases hg)

/-- C9: with no buffer gas bound, the closed-form probability is
symmetric under exchanging `ma` and `mg` (the phase-sign flip): the
phase enters only through its square and its cosine. -/
theorem gammaTransmissionProbability_mass_symm (st : FieldState)
    (ma mg absLength : ℝ) :
    GammaTransmissionProbability st none ma mg absLength =
      GammaTransmissionProbability st none mg ma absLength := by
  simp only [GammaTransmissionProbability, resolvedPhotonMass, resolvedGamma]
  by_cases hc : ma = 0 ∧ mg = 0
  · rw [if_pos hc, if_pos ⟨hc.2, hc.1⟩]
  · rw [if_neg hc, if_neg (fun hmc => hc ⟨hmc.2, hmc.1⟩)]
    have h1 : (mg * mg - ma * ma) / 2 / (st.fEa * units_eV) *
          (st.fLcoh * units_m * PhMeterIneV)
        = -((ma * ma - mg * mg) / 2 / (st.fEa * units_eV) *
          (st.fLcoh * units_m * PhMeterIneV)) := by
      ring
    rw [h1, Real.cos_neg]
    ring

/-- Helper: on an empty profile every midpoint sum of at least one term
hits an out-of-range access. -/
theorem vecSumN_nil (deltaL q Gamma : ℝ) (n : ℕ) :
    vecSumN [] deltaL q Gamma (n + 1) = none := by
  induction n with
  | zero => simp [vecSumN, midpointTerm]
  | succ k ih =>
    have h : vecSumN [] deltaL q Gamma (k + 1 + 1) =
        match vecSumN [] deltaL q Gamma (k + 1), midpointTerm [] deltaL q Gamma (k + 1) with
        | some s, some t => some (s + t)
        | _, _ => none := rfl
    rw [h, ih]

/-- C3: a single-sample profile is well-defined and yields probability
zero, but the empty profile reaches the general branch with the
underflowed `size_t` loop bound 2⁶⁴ − 1 and reads the vector out of
range (`none`) — the code, not the claim, is at fault on length 0. -/
theorem vecOverload_shortProfiles :
    (∀ (gas : Option GasInst) (b deltaL Ea ma mg absLength : ℝ),
      GammaTransmissionProbabilityVec gas [b] deltaL Ea ma mg absLength = some 0) ∧
    GammaTransmissionProbabilityVec none [] 1 1 1 0 0 = none := by
  constructor
  · intro gas b deltaL Ea ma mg absLength
    have hc : sizeMinusOne 1 = 0 := by norm_num [sizeMinusOne]
    simp only [GammaTransmissionProbabilityVec, List.length_singleton, hc,
      Nat.cast_zero, zero_mul]
    split
    · simp [BLHalfSquared]
    · simp [vecSumN]
  · have hc0 : sizeMinusOne 0 = 2 ^ 64 - 1 := by norm_num [sizeMinusOne]
    have hsucc : (2 : ℕ) ^ 64 - 1 = (2 ^ 64 - 2) + 1 := by norm_num
    simp only [GammaTransmissionProbabilityVec, List.length_nil, hc0]
    rw [if_neg (by simp)]
    rw [hsucc, vecSumN_nil]
    rfl

/-- C4 counterexample: with a field map bound whose track length is
zero, the engine returns `(0,0)` silently — no error diagnostic is
emitted, contrary to the claim. -/
theorem fieldMapProbability_zeroTrack_silent :
    GammaTransmissionFieldMapProbability (some ⟨0⟩) none ⟨0, 0, 0⟩ ⟨0, 0, 0⟩ ⟨0, 0, 0⟩ 1 1 =
      ((0, 0), false) := by
  simp [GammaTransmissionFieldMapProbability]

/-- C4 (amended): with no field map bound the engine reports an error
and returns `(0,0)`; with a bound map of non-positive track length it
returns `(0,0)` without a diagnostic; in both cases no quadrature is
attempted and no exception escapes. -/
theorem fieldMapProbability_guard (gas : Option GasInst)
    (qag qawoCos qawoSin : QuadResult) (Ea ma : ℝ) :
    GammaTransmissionFieldMapProbability none gas qag qawoCos qawoSin Ea ma =
      ((0, 0), true) ∧
    ∀ M : MagneticField, M.GetTrackLength ≤ 0 →
      GammaTransmissionFieldMapProbability (some M) gas qag qawoCos qawoSin Ea ma =
        ((0, 0), false) := by
  refine ⟨rfl, fun M hM => ?_⟩
  simp [GammaTransmissionFieldMapProbability, if_pos hM]

/-- C4 witness: both guard violations at concrete inputs. -/
theorem fieldMapProbability_guard_witness :
    GammaTransmissionFieldMapProbability none none ⟨0, 0, 0⟩ ⟨0, 0, 0⟩ ⟨0, 0, 0⟩ 1 1 =
      ((0, 0), true) ∧
    GammaTransmissionFieldMapProbability (some ⟨-3⟩) none ⟨0, 0, 0⟩ ⟨0, 0, 0⟩ ⟨0, 0, 0⟩ 1 1 =
      ((0, 0), false) :=
  ⟨(fieldMapProbability_guard none ⟨0, 0, 0⟩ ⟨0, 0, 0⟩ ⟨0, 0, 0⟩ 1 1).1,
    (fieldMapProbability_guard none ⟨0, 0, 0⟩ ⟨0, 0, 0⟩ ⟨0, 0, 0⟩ 1 1).2 ⟨-3⟩
      (by norm_num)⟩

/-- C5: a positive status from any quadrature call makes the adaptive
engine return `(0, status)`: the QAG call in the resonance wrapper, and
either QAWO call (the second only being reached when the first
succeeded) in the off-resonance wrapper. -/
theorem quadratureFailure_returns_status (M : MagneticField)
    (qag qawoCos qawoSin : QuadResult) (q Gamma : ℝ) :
    (0 < qag.status →
      ComputeResonanceIntegral M qag Gamma = (0, (qag.status : ℝ))) ∧
    (0 < qawoCos.status →
      ComputeOffResonanceIntegral M qawoCos qawoSin q Gamma = (0, (qawoCos.status : ℝ))) ∧
    (¬0 < qawoCos.status → 0 < qawoSin.status →
      ComputeOffResonanceIntegral M qawoCos qawoSin q Gamma = (0, (qawoSin.status : ℝ))) := by
  refine ⟨fun h => ?_, fun h => ?_, fun h1 h2 => ?_⟩ <;>
    simp [ComputeResonanceIntegral, ComputeOffResonanceIntegral, *]

/-- Helper: the walk exits by itself once the fuel covers the distance
to the 10 eV ceiling. -/
theorem fwhmWalk_isSome (P : ℝ → ℝ) (halfMax step : ℝ) (hstep : 0 < step) :
    ∀ (n : ℕ) (s : ℝ), 10 - s ≤ n * step → (fwhmWalk P halfMax step (n + 1) s).isSome := by
  intro n
  induction n with
  | zero =>
    intro s hs
    rw [Nat.cast_zero, zero_mul] at hs
    simp only [fwhmWalk]
    split
    · rw [if_pos (show (10 : ℝ) < s + step by linarith)]
      rfl
    · rfl
  | succ k ih =>
    intro s hs
    simp only [fwhmWalk]
    split
    · split
      · rfl
      · apply ih
        push_cast at hs ⊢
        linarith
    · rfl

/-- Helper: a crossing exit happens at the start plus a whole number of
steps. -/
theorem fwhmWalk_crossed (P : ℝ → ℝ) (halfMax step : ℝ) :
    ∀ (n : ℕ) (s m : ℝ),
      fwhmWalk P halfMax step n s = some (WalkResult.crossed m) →
      ∃ k : ℕ, m = s + k * step := by
  intro n
  induction n with
  | zero =>
    intro s m h
    simp [fwhmWalk] at h
  | succ k ih =>
    intro s m h
    simp only [fwhmWalk] at h
    split at h
    · split at h
      · simp at h
      · obtain ⟨j, hj⟩ := ih _ _ h
        exact ⟨j + 1, by push_cast; linarith⟩
    · simp only [Option.some.injEq, WalkResult.crossed.injEq] at h
      exact ⟨0, by rw [← h]; push_cast; ring⟩

/-- Helper: the fuel `walkFuel` always suffices. -/
theorem fwhmWalk_walkFuel_isSome (P : ℝ → ℝ) (halfMax r step : ℝ) (hstep : 0 < step) :
    (fwhmWalk P halfMax step (walkFuel r step) r).isSome := by
  show (fwhmWalk P halfMax step (⌈(10 - r) / step⌉₊ + 1) r).isSome
  apply fwhmWalk_isSome P halfMax step hstep
  rcases le_or_lt (10 - r) 0 with hle | hpos
  · have h0 : (0 : ℝ) ≤ (⌈(10 - r) / step⌉₊ : ℝ) * step := by positivity
    linarith
  · have h1 : (10 - r) / step ≤ (⌈(10 - r) / step⌉₊ : ℝ) := Nat.le_ceil _
    have h2 : (10 - r) / step * step ≤ (⌈(10 - r) / step⌉₊ : ℝ) * step :=
      mul_le_mul_of_nonneg_right h1 hstep.le
    rwa [div_mul_cancel₀ _ (ne_of_gt hstep)] at h2

/-- Helper: the FWHM search never returns less than twice the walk step
(for any probability curve, any step in (0, 5]): the sentinel is 10, a
crossing is at least one step wide, and the non-positive-width fallback
is exactly twice the step. -/
theorem fwhmSearch_ge_two_step (P : ℝ → ℝ) (r step : ℝ) (hstep : 0 < step)
    (hstep5 : step ≤ 5) : 2 * step ≤ (fwhmSearch P r step).1 := by
  have hsome := fwhmWalk_walkFuel_isSome P (P r / 2) r step hstep
  simp only [fwhmSearch]
  rcases hw : fwhmWalk P (P r / 2) step (walkFuel r step) r with _ | res
  · rw [hw] at hsome
    cases hsome
  · cases res with
    | sentinel =>
      show 2 * step ≤ (10 : ℝ)
      linarith
    | crossed m =>
      show 2 * step ≤ (if m - r ≤ 0 then ((2 * step : ℝ), true) else (2 * (m - r), false)).1
      split
      · exact le_refl _
      · rename_i hpos
        push_neg at hpos
        obtain ⟨k, hk⟩ := fwhmWalk_crossed P (P r / 2) step _ _ _ hw
        have hk0 : k ≠ 0 := by
          rintro rfl
          rw [hk] at hpos
          push_cast at hpos
          linarith
        have hk1 : (1 : ℝ) ≤ (k : ℝ) := by
          exact_mod_cast Nat.one_le_iff_ne_zero.mpr hk0
        have hstepm : step ≤ m - r := by
          rw [hk]
          nlinarith
        show 2 * step ≤ 2 * (m - r)
        linarith

/-- Helper: the FWHM method's result, lifted to the field instance. -/
theorem gammaTransmissionFWHM_ge (st : FieldState) (gas : Option GasInst) (step : ℝ)
    (hstep : 0 < step) (hstep5 : step ≤ 5) :
    2 * step ≤ (GammaTransmissionFWHM st gas step).1 :=
  fwhmSearch_ge_two_step _ _ _ hstep hstep5

/-- Helper: the FWHM method always returns a strictly positive width. -/
theorem gammaTransmissionFWHM_pos (st : FieldState) (gas : Option GasInst) (step : ℝ)
    (hstep : 0 < step) (hstep5 : step ≤ 5) :
    0 < (GammaTransmissionFWHM st gas step).1 :=
  lt_of_lt_of_le (by positivity) (gammaTransmissionFWHM_ge st gas step hstep hstep5)

/-- Helper: when the probability never drops to half-maximum on
`[s, 10]`, the walk can only run out of fuel or exit by the sentinel. -/
theorem fwhmWalk_stays_above (P : ℝ → ℝ) (halfMax step : ℝ) (hstep : 0 < step) (r : ℝ)
    (hcross : ∀ m, r ≤ m → m ≤ 10 → halfMax < P m) :
    ∀ (n : ℕ) (s : ℝ), r ≤ s → s ≤ 10 →
      fwhmWalk P halfMax step n s = none ∨
        fwhmWalk P halfMax step n s = some WalkResult.sentinel := by
  intro n
  induction n with
  | zero =>
    intro s _ _
    left
    rfl
  | succ k ih =>
    intro s hrs hs10
    simp only [fwhmWalk]
    rw [if_pos (hcross s hrs hs10)]
    by_cases h2 : 10 < s + step
    · rw [if_pos h2]
      right
      rfl
    · rw [if_neg h2]
      push_neg at h2
      exact ih (s + step) (by linarith) h2

/-- Helper: under the same no-crossing condition the search returns the
sentinel pair `(10, error)`. -/
theorem fwhmSearch_sentinel (P : ℝ → ℝ) (r step : ℝ) (hstep : 0 < step) (hr : r ≤ 10)
    (hcross : ∀ m, r ≤ m → m ≤ 10 → P r / 2 < P m) :
    fwhmSearch P r step = (10, true) := by
  have hsome := fwhmWalk_walkFuel_isSome P (P r / 2) r step hstep
  rcases fwhmWalk_stays_above P (P r / 2) step hstep r hcross (walkFuel r step) r
      le_rfl hr with hnone | hsent
  · rw [hnone] at hsome
    cases hsome
  · simp only [fwhmSearch]
    rw [hsent]

/-- C8: for every positive step, when the probability stays above half
the resonance maximum on the whole walk range up to the 10 eV ceiling,
`GammaTransmissionFWHM` terminates and returns exactly the sentinel 10
(not doubled), with the error flag set. -/
theorem gammaTransmissionFWHM_sentinel (st : FieldState) (gas : Option GasInst)
    (step : ℝ) (hstep : 0 < step) (hr : fwhmResonanceMass gas st.fEa ≤ 10)
    (hcross : ∀ m, fwhmResonanceMass gas st.fEa ≤ m → m ≤ 10 →
      GammaTransmissionProbability st gas (fwhmResonanceMass gas st.fEa) 0 0 / 2 <
        GammaTransmissionProbability st gas m 0 0) :
    GammaTransmissionFWHM st gas step = (10, true) :=
  fwhmSearch_sentinel _ _ _ hstep hr hcross

/-- C8 witness: a gas pinning the resonance at 10 eV with a positive
probability there makes the walk overrun the ceiling at once. -/
theorem gammaTransmissionFWHM_sentinel_witness :
    GammaTransmissionFWHM ⟨1, 1000, 1⟩ (some ⟨gasSpecTen, 0⟩) 1 = (10, true) := by
  have hres : fwhmResonanceMass (some ⟨gasSpecTen, 0⟩) ((⟨1, 1000, 1⟩ : FieldState).fEa)
      = 10 := rfl
  apply gammaTransmissionFWHM_sentinel ⟨1, 1000, 1⟩ (some ⟨gasSpecTen, 0⟩) 1 one_pos
  · rw [hres]
  · intro m h1 h2
    rw [hres] at h1 ⊢
    have hm : m = 10 := le_antisymm h2 h1
    subst hm
    have hpos : 0 < GammaTransmissionProbability ⟨1, 1000, 1⟩ (some ⟨gasSpecTen, 0⟩) 10 0 0 := by
      have hbranch : ¬((10 : ℝ) = 0 ∧
          resolvedPhotonMass (some ⟨gasSpecTen, 0⟩) ((⟨1, 1000, 1⟩ : FieldState).fEa) 0 = 0) := by
        intro hc
        exact (by norm_num : (10 : ℝ) ≠ 0) hc.1
      simp only [GammaTransmissionProbability, if_neg hbranch]
      have hpm : resolvedPhotonMass (some ⟨gasSpecTen, 0⟩) ((⟨1, 1000, 1⟩ : FieldState).fEa) 0
          = 10 := by
        simp [resolvedPhotonMass, GasInst.GetPhotonMass, gasSpecTen]
      have hga : resolvedGamma (some ⟨gasSpecTen, 0⟩) ((⟨1, 1000, 1⟩ : FieldState).fEa) 0
          = 10 := by
        simp [resolvedGamma, GasInst.GetPhotonAbsorptionLength, gasSpecTen]
      rw [hpm, hga]
      have hphi : ((10 : ℝ) * 10 - 10 * 10) / 2 /
          ((⟨1, 1000, 1⟩ : FieldState).fEa * units_eV) *
          ((⟨1, 1000, 1⟩ : FieldState).fLcoh * units_m * PhMeterIneV) = 0 := by
        show ((10 : ℝ) * 10 - 10 * 10) / 2 / ((1 : ℝ) * units_eV) *
          ((1000 : ℝ) * units_m * PhMeterIneV) = 0
        norm_num
      rw [hphi]
      have hGL : (10 : ℝ) * ((⟨1, 1000, 1⟩ : FieldState).fLcoh * units_m) * units_cm / units_m
          = 1000 := by
        show (10 : ℝ) * ((1000 : ℝ) * units_m) * units_cm / units_m = 1000
        rw [units_m, units_cm]
        norm_num
      rw [hGL]
      have hsq : 1 + Real.exp (-(1000 : ℝ)) - 2 * Real.exp (-(1000 : ℝ) / 2) * Real.cos 0
          = (1 - Real.exp (-500)) ^ 2 := by
        have he : Real.exp (-(1000 : ℝ)) = Real.exp (-500) * Real.exp (-500) := by
          rw [← Real.exp_add]
          norm_num
        have he2 : (-(1000 : ℝ)) / 2 = -500 := by norm_num
        rw [Real.cos_zero, he, he2]
        ring
      rw [hsq]
      have hexp : Real.exp (-(500 : ℝ)) < 1 := by
        calc Real.exp (-(500 : ℝ)) < Real.exp 0 := Real.exp_lt_exp.mpr (by norm_num)
        _ = 1 := Real.exp_zero
      have hB : 0 < BLHalfSquared (⟨1, 1000, 1⟩ : FieldState).fBmag
          (⟨1, 1000, 1⟩ : FieldState).fLcoh := by
        show 0 < BLHalfSquared 1 1000
        rw [BLHalfSquared, lightSpeed, naturalElectron, units_m, units_GeV, units_eV]
        norm_num
      have hsqpos : 0 < (1 - Real.exp (-(500 : ℝ))) ^ 2 := pow_pos (by linarith) 2
      have hM : 0 < 1 / ((0 : ℝ) * 0 + 1000 * 1000 / 4) := by norm_num
      exact mul_pos (mul_pos hM hB) hsqpos
    linarith

/-- Helper: whatever list the scan loop completes with extends the
accumulator by a strictly increasing tail of masses whose last entry
(or the entry mass if the loop ran zero iterations) reaches `maMax`. -/
theorem scanLoop_sound (spec : GasSpec) (st : FieldState) (maMax rampDown : ℝ) :
    ∀ (fuel : ℕ) (ma density : ℝ) (acc l : List (ℝ × ℝ)),
      scanLoop spec st maMax rampDown fuel ma density acc = some l →
      ∃ tl, l = acc ++ tl ∧ List.Chain' (· < ·) (ma :: tl.map Prod.fst) ∧
        maMax ≤ (tl.map Prod.fst).getLastD ma := by
  intro fuel
  induction fuel with
  | zero =>
    intro ma density acc l h
    simp only [scanLoop] at h
    split at h
    · exact absurd h (by simp)
    · rename_i hlt
      obtain rfl : acc = l := Option.some.inj h
      exact ⟨[], by simp, by simp, by simpa using le_of_not_lt hlt⟩
  | succ k ih =>
    intro ma density acc l h
    simp only [scanLoop] at h
    split at h
    · rename_i hlt
      set ma' := ma + (GammaTransmissionFWHM st (some ⟨spec, density⟩) (1 / 1000)).1 /
          (Real.exp (-ma * rampDown) + 1) with hma'
      set d' := spec.densityForMass ma' with hd'
      obtain ⟨tl, hl, hch, hlast⟩ := ih ma' d' (acc ++ [(ma', d')]) l h
      refine ⟨(ma', d') :: tl, ?_, ?_, ?_⟩
      · rw [hl, List.append_assoc, List.singleton_append]
      · rw [List.map_cons, List.chain'_cons]
        refine ⟨?_, hch⟩
        have hF : 0 < (GammaTransmissionFWHM st (some ⟨spec, density⟩) (1 / 1000)).1 :=
          gammaTransmissionFWHM_pos st _ _ (by norm_num) (by norm_num)
        have hfac : 0 < Real.exp (-ma * rampDown) + 1 := by positivity
        show ma < ma'
        rw [hma']
        exact lt_add_of_pos_right ma (div_pos hF hfac)
      · rw [List.map_cons, List.getLastD_cons]
        exact hlast
    · rename_i hlt
      obtain rfl : acc = l := Option.some.inj h
      exact ⟨[], by simp, by simp, by simpa using le_of_not_lt hlt⟩

/-- Helper: with the zero-response gas and a zero field state the
vacuum FWHM falls back to twice the default step. -/
theorem fwhmFixtureEval :
    GammaTransmissionFWHM ⟨0, 0, 0⟩ none (1 / 1000) = (2 * (1 / 1000), true) := by
  have hP : GammaTransmissionProbability ⟨0, 0, 0⟩ none 0 0 0 = 0 := by
    simp [GammaTransmissionProbability, resolvedPhotonMass, BLHalfSquared]
  show fwhmSearch (fun m => GammaTransmissionProbability ⟨0, 0, 0⟩ none m 0 0) 0 (1 / 1000)
      = (2 * (1 / 1000), true)
  simp only [fwhmSearch, walkFuel]
  rw [fwhmWalk]
  rw [if_neg (by rw [hP]; norm_num)]
  norm_num

/-- Helper: a concrete completed scan with `maMax = 0`: the loop runs
zero iterations and the previously bound gas is restored. -/
theorem scanFixtureEval :
    GetMassDensityScanning gasSpecZero ⟨0, 0, 0⟩ (some ⟨gasSpecZero, 5⟩) 0 3 0 =
      some ([((1 : ℝ) / 1000, 0)], some ⟨gasSpecZero, 5⟩) := by
  simp only [GetMassDensityScanning, fwhmFixtureEval]
  simp only [scanLoop]
  rw [if_neg (by norm_num)]
  simp [gasSpecZero]

/-- C6: every completed `GetMassDensityScanning` call emits a non-empty
pair list with strictly increasing masses whose last mass reaches
`maMax` — including the zero-iteration case where the first mass
already does. -/
theorem getMassDensityScanning_pairs (spec : GasSpec) (st : FieldState)
    (prevGas : Option GasInst) (maMax rampDown : ℝ) (fuel : ℕ)
    (pairs : List (ℝ × ℝ)) (finalGas : Option GasInst)
    (h : GetMassDensityScanning spec st prevGas maMax rampDown fuel =
      some (pairs, finalGas)) :
    pairs ≠ [] ∧ List.Chain' (· < ·) (pairs.map Prod.fst) ∧
      maMax ≤ (pairs.map Prod.fst).getLastD 0 := by
  simp only [GetMassDensityScanning] at h
  obtain ⟨l0, hl0, hfa⟩ := Option.map_eq_some'.mp h
  obtain rfl : l0 = pairs := congrArg Prod.fst hfa
  obtain ⟨tl, hl, hch, hlast⟩ := scanLoop_sound spec st maMax rampDown fuel _ _ _ _ hl0
  rw [List.singleton_append] at hl
  refine ⟨?_, ?_, ?_⟩
  · rw [hl]
    simp
  · rw [hl, List.map_cons]
    exact hch
  · rw [hl, List.map_cons, List.getLastD_cons]
    exact hlast

/-- C6 witness: a concrete completed scan. -/
theorem getMassDensityScanning_pairs_witness :
    ([((1 : ℝ) / 1000, (0 : ℝ))] ≠ []) ∧
      List.Chain' (· < ·) ([((1 : ℝ) / 1000, (0 : ℝ))].map Prod.fst) ∧
      (0 : ℝ) ≤ ([((1 : ℝ) / 1000, (0 : ℝ))].map Prod.fst).getLastD 0 :=
  getMassDensityScanning_pairs gasSpecZero ⟨0, 0, 0⟩ (some ⟨gasSpecZero, 5⟩) 0 3 0 _ _
    scanFixtureEval

/-- C7: on the completed exit path the buffer-gas binding observable
after `GetMassDensityScanning` equals the binding in place before the
call, null or not, despite the temporary detach-and-attach. -/
theorem getMassDensityScanning_restoresGas (spec : GasSpec) (st : FieldState)
    (prevGas : Option GasInst) (maMax rampDown : ℝ) (fuel : ℕ)
    (pairs : List (ℝ × ℝ)) (finalGas : Option GasInst)
    (h : GetMassDensityScanning spec st prevGas maMax rampDown fuel =
      some (pairs, finalGas)) :
    finalGas = prevGas := by
  simp only [GetMassDensityScanning] at h
  obtain ⟨l0, hl0, hfa⟩ := Option.map_eq_some'.mp h
  exact (congrArg Prod.snd hfa).symm

/-- C7 witness: the gas bound before the concrete scan is the gas
observable after it. -/
theorem getMassDensityScanning_restoresGas_witness :
    (some (⟨gasSpecZero, 5⟩ : GasInst) : Option GasInst) = some ⟨gasSpecZero, 5⟩ :=
  getMassDensityScanning_restoresGas gasSpecZero ⟨0, 0, 0⟩ (some ⟨gasSpecZero, 5⟩) 0 3 0 _ _
    scanFixtureEval

/-- Helper: the scan loop completes once the fuel covers the remaining
mass range at the guaranteed minimum advance of one walk step per
iteration (factor ≤ 2, FWHM ≥ 2·step). -/
theorem scanLoop_isSome (spec : GasSpec) (st : FieldState) (maMax rampDown : ℝ)
    (hrd : 0 ≤ rampDown) :
    ∀ (n : ℕ) (ma density : ℝ) (acc : List (ℝ × ℝ)), 0 < ma →
      maMax - ma ≤ n * (1 / 1000) →
      (scanLoop spec st maMax rampDown n ma density acc).isSome := by
  intro n
  induction n with
  | zero =>
    intro ma density acc hma hb
    rw [Nat.cast_zero, zero_mul] at hb
    simp only [scanLoop]
    rw [if_neg (by linarith)]
    rfl
  | succ k ih =>
    intro ma density acc hma hb
    simp only [scanLoop]
    split
    · rename_i hlt
      have hF : 2 * (1 / 1000) ≤ (GammaTransmissionFWHM st (some ⟨spec, density⟩) (1 / 1000)).1 :=
        gammaTransmissionFWHM_ge st _ _ (by norm_num) (by norm_num)
      have hexp : Real.exp (-ma * rampDown) ≤ 1 := by
        calc Real.exp (-ma * rampDown) ≤ Real.exp 0 :=
          Real.exp_le_exp.mpr (by nlinarith)
        _ = 1 := Real.exp_zero
      have hfac : 0 < Real.exp (-ma * rampDown) + 1 := by positivity
      have hinc : 1 / 1000 ≤ (GammaTransmissionFWHM st (some ⟨spec, density⟩) (1 / 1000)).1 /
          (Real.exp (-ma * rampDown) + 1) := by
        have h2 : Real.exp (-ma * rampDown) + 1 ≤ 2 := by linarith
        have h3 : (GammaTransmissionFWHM st (some ⟨spec, density⟩) (1 / 1000)).1 / 2 ≤
            (GammaTransmissionFWHM st (some ⟨spec, density⟩) (1 / 1000)).1 /
              (Real.exp (-ma * rampDown) + 1) :=
          div_le_div_of_nonneg_left (by linarith) hfac h2
        linarith
      apply ih
      · linarith
      · push_cast at hb ⊢
        linarith
    · rfl

/-- C10: the scan generator terminates: for every gas model, field
state, previous binding, mass ceiling and non-negative ramp-down there
is a fuel with which the call completes, because every iteration
advances the mass by `FWHM/factor`, the FWHM is at least twice the
(positive) default walk step, and `factor = e^(−ma·rampDown) + 1 ≤ 2`
along the loop. -/
theorem getMassDensityScanning_terminates (spec : GasSpec) (st : FieldState)
    (prevGas : Option GasInst) (maMax rampDown : ℝ) (hrd : 0 ≤ rampDown) :
    ∃ (fuel : ℕ) (out : List (ℝ × ℝ) × Option GasInst),
      GetMassDensityScanning spec st prevGas maMax rampDown fuel = some out := by
  have hpos : 0 < (GammaTransmissionFWHM st none (1 / 1000)).1 / 2 := by
    have := gammaTransmissionFWHM_pos st none (1 / 1000) (by norm_num) (by norm_num)
    linarith
  obtain ⟨n, hn⟩ := exists_nat_ge ((maMax - (GammaTransmissionFWHM st none (1 / 1000)).1 / 2) * 1000)
  have hb : maMax - (GammaTransmissionFWHM st none (1 / 1000)).1 / 2 ≤ n * (1 / 1000) := by
    linarith
  have hs := scanLoop_isSome spec st maMax rampDown hrd n
      ((GammaTransmissionFWHM st none (1 / 1000)).1 / 2)
      (spec.densityForMassE ((GammaTransmissionFWHM st none (1 / 1000)).1 / 2) st.fEa)
      [((GammaTransmissionFWHM st none (1 / 1000)).1 / 2,
        spec.densityForMassE ((GammaTransmissionFWHM st none (1 / 1000)).1 / 2) st.fEa)]
      hpos hb
  obtain ⟨l, hl⟩ := Option.isSome_iff_exists.mp hs
  refine ⟨n, (l, prevGas), ?_⟩
  simp only [GetMassDensityScanning]
  rw [hl]
  rfl

/-- C10 witness: a concrete terminating configuration. -/
theorem getMassDensityScanning_terminates_witness :
    ∃ (fuel : ℕ) (out : List (ℝ × ℝ) × Option GasInst),
      GetMassDensityScanning gasSpecZero ⟨0, 0, 0⟩ none 1 0 fuel = some out :=
  getMassDensityScanning_terminates gasSpecZero ⟨0, 0, 0⟩ none 1 0 le_rfl

/-- C5 witness: concrete failing statuses on the QAG path and on the
second QAWO call. -/
theorem quadratureFailure_returns_status_witness :
    ComputeResonanceIntegral ⟨100⟩ ⟨3, 0, 0⟩ 0 = (0, ((⟨3, 0, 0⟩ : QuadResult).status : ℝ)) ∧
    ComputeOffResonanceIntegral ⟨100⟩ ⟨0, 0, 0⟩ ⟨4, 0, 0⟩ 1 0 =
      (0, ((⟨4, 0, 0⟩ : QuadResult).status : ℝ)) :=
  ⟨(quadratureFailure_returns_status ⟨100⟩ ⟨3, 0, 0⟩ ⟨0, 0, 0⟩ ⟨0, 0, 0⟩ 1 0).1 (by decide),
    (quadratureFailure_returns_status ⟨100⟩ ⟨3, 0, 0⟩ ⟨0, 0, 0⟩ ⟨4, 0, 0⟩ 1 0).2.2
      (by decide) (by decide)⟩

end TRestAxionField
